import Mathlib

/-!
Verification of the FoundationOne-to-Oncoprinter conversion scripts.

The Python sources are embedded shallowly:
* `Py` models the Python string primitives the scripts use, over `List Char`;
* `FilteredByDx` models `src/to_oncoprinter_filtered_by_dx.py` (oncoprint
  matrix generation: classification of short variants, rearrangements and
  copy-number alterations, and the row-emission loop);
* `MutationMap` models `src/to_oncoprinter_mutation_map_validated_dataset.py`
  (genomic-position and CDS-effect parsing, 11-column validated table);
* `ClinicalData` models `src/to_oncoprinter_clinical_data.py` (age, mutation
  spectrum, diagnosis grouping);
* `SpecSide` holds definitions that follow the specification's words where
  they are to be compared with the code's behaviour.

Pandas `NaN` cells are modelled as `none : Option String`; CSV tables are
lists of records in source row order.  Python string operations over the
scripts' ASCII data are modelled over `List Char`.
-/

namespace Py

/-- Does the pattern occur at the head of the list? (`s.startswith(pat)`). -/
def leadsWith : List Char → List Char → Bool
  | [], _ => true
  | _ :: _, [] => false
  | p :: ps, c :: cs => p = c && leadsWith ps cs

/-- Python `s.split(sep)` for a one-character separator: always returns at
least one (possibly empty) part. -/
def splitOnChar (sep : Char) : List Char → List (List Char)
  | [] => [[]]
  | c :: rest =>
      let r := splitOnChar sep rest
      if c = sep then [] :: r
      else
        match r with
        | h :: t => (c :: h) :: t
        | [] => [[c]]

/-- Python `s.replace(' ', '_')`. -/
def mapSpaces (l : List Char) : List Char :=
  l.map (fun c => if c = ' ' then '_' else c)

/-- ASCII whitespace accepted and stripped by Python `int(str)`. -/
def pyWS (c : Char) : Bool :=
  c = ' ' || c = '\t' || c = '\n' || c = '\x0d' || c = '\x0b' || c = '\x0c'

/-- Digit grammar of Python `int(str)` after the leading digit: digits in
which single underscores may separate digit pairs. -/
def digitsTail : List Char → Bool
  | [] => true
  | c :: rest =>
      if c = '_' then
        match rest with
        | d :: _ => d.isDigit && digitsTail rest
        | [] => false
      else c.isDigit && digitsTail rest

/-- Non-empty digit run, first character a digit. -/
def validDigits : List Char → Bool
  | [] => false
  | c :: rest => c.isDigit && digitsTail rest

/-- Base-10 value of a digit run, ignoring underscore separators. -/
def digitsVal (l : List Char) : ℕ :=
  (l.filter (fun c => c ≠ '_')).foldl (fun acc c => acc * 10 + (c.toNat - 48)) 0

/-- Python `int(str)`: strip surrounding whitespace, optional sign, then a
base-10 digit run (underscore separators allowed); `none` models the
`ValueError` path. -/
def pyInt (s : String) : Option ℤ :=
  let t := ((s.toList.dropWhile pyWS).reverse.dropWhile pyWS).reverse
  match t with
  | '+' :: rest => if validDigits rest then some (digitsVal rest) else none
  | '-' :: rest => if validDigits rest then some (-(digitsVal rest : ℤ)) else none
  | rest => if validDigits rest then some (digitsVal rest) else none

end Py

namespace FilteredByDx

/-- One row of `short_variants.csv` as read by the script: `report_id`,
`@gene` (possibly NaN), `@functional-effect`, `@protein-effect`, `@status`. -/
structure Variant where
  report_id : String
  gene : Option String
  functionalEffect : String
  proteinEffect : String
  status : String
deriving DecidableEq, Repr

/-- One row of `rearrangements.csv`: `report_id`, `@type`, `@description`,
`@other-gene` (possibly NaN), `@targeted-gene` (possibly NaN). -/
structure Rearrangement where
  report_id : String
  rtype : String
  description : String
  otherGene : Option String
  targetedGene : Option String
deriving DecidableEq, Repr

/-- One row of `copy_number_alterations.csv`: `report_id`, `@gene`
(possibly NaN), `@copy-number`, `@type`. -/
structure CNA where
  report_id : String
  gene : Option String
  copyNumber : ℚ
  ctype : String
deriving DecidableEq, Repr

/-- The character allow-list `c.isalnum() or c in '_-*:+.()/'` used to clean
alteration labels. -/
def allowedAltChar (c : Char) : Bool :=
  c.isAlphanum || c = '_' || c = '-' || c = '*' || c = ':' || c = '+' ||
    c = '.' || c = '(' || c = ')' || c = '/'

/-- The characters of the phrase `"splice site "`. -/
def spliceSitePhrase : List Char :=
  ['s', 'p', 'l', 'i', 'c', 'e', ' ', 's', 'i', 't', 'e', ' ']

/-- Python `s.replace('splice site ', '')`: removes every occurrence of the
phrase, scanning left to right without overlap. -/
def removeSpliceSite : List Char → List Char
  | 's' :: 'p' :: 'l' :: 'i' :: 'c' :: 'e' :: ' ' :: 's' :: 'i' :: 't' :: 'e' :: ' ' :: rest =>
      removeSpliceSite rest
  | c :: rest => c :: removeSpliceSite rest
  | [] => []

/-- Label cleaning shared by the variant and rearrangement classifiers:
spaces become underscores, characters outside the allow-list are dropped. -/
def cleanLabel (l : List Char) : String :=
  String.mk ((Py.mapSpaces l).filter allowedAltChar)

/-- `determine_mutation_type` of `to_oncoprinter_filtered_by_dx.py`:
returns the `(alteration, type)` pair for a short variant. -/
def determine_mutation_type (v : Variant) : String × String :=
  let mutationType :=
    if v.functionalEffect = "missense" then "MISSENSE"
    else if v.functionalEffect = "nonsense" then "TRUNC"
    else if v.functionalEffect = "nonframeshift" ∨ v.functionalEffect = "inframe" then "INFRAME"
    else if v.functionalEffect = "frameshift" then "TRUNC"
    else if v.functionalEffect = "splice" then "SPLICE"
    else if v.functionalEffect = "promoter" then "PROMOTER"
    else "OTHER"
  let proteinEffect :=
    if Py.leadsWith spliceSitePhrase v.proteinEffect.toList then
      removeSpliceSite v.proteinEffect.toList
    else v.proteinEffect.toList
  let alteration := cleanLabel proteinEffect
  let mutationType :=
    if v.status = "known" ∨ v.status = "likely" then mutationType ++ "_DRIVER"
    else mutationType
  (alteration, mutationType)

/-- Rendering of a possibly-NaN pandas cell inside a Python f-string
(`str(nan) = "nan"`). -/
def pyCell (s : Option String) : String :=
  match s with
  | none => "nan"
  | some t => t

/-- `determine_rearrangement_type`: always type `FUSION`; the label is the
sanitised description for internal events, `other-targeted_fusion` otherwise. -/
def determine_rearrangement_type (r : Rearrangement) : String × String :=
  let alteration :=
    match r.otherGene with
    | none => cleanLabel r.description.toList
    | some og =>
        if og = "N/A" then cleanLabel r.description.toList
        else og ++ "-" ++ pyCell r.targetedGene ++ "_fusion"
  (alteration, "FUSION")

/-- `determine_cna_type`: amplification splits on copy-number ≥ 8 into
`AMP`/`GAIN`, loss splits on copy-number = 0 into `HOMDEL`/`HETLOSS`, and
anything else defaults to `GAIN`; the second component is always `CNA`. -/
def determine_cna_type (c : CNA) : String × String :=
  if c.ctype = "amplification" then
    if c.copyNumber ≥ 8 then ("AMP", "CNA") else ("GAIN", "CNA")
  else if c.ctype = "loss" then
    if c.copyNumber = 0 then ("HOMDEL", "CNA") else ("HETLOSS", "CNA")
  else ("GAIN", "CNA")

/-- Writer state of `convert_to_oncoprinter_format`: the rows written so far
and the current contents of the mutable `all_patient_ids` set (modelled as a
duplicate-free list). -/
abbrev WriterState := List (List String) × List String

/-- One iteration of the short-variant loop of
`convert_to_oncoprinter_format`.  Note that membership is tested against the
same `all_patient_ids` set from which emitted patients are removed. -/
def processVariant (st : WriterState) (v : Variant) : WriterState :=
  if v.report_id ∈ st.2 then
    match v.gene with
    | none => st
    | some g =>
        if g = "" then st
        else
          let at' := determine_mutation_type v
          if at'.1 = "" then st
          else (st.1 ++ [[v.report_id, g, at'.1, at'.2]], st.2.erase v.report_id)
  else st

/-- One iteration of the rearrangement loop of
`convert_to_oncoprinter_format` (the gene column is `@targeted-gene`). -/
def processRearrangement (st : WriterState) (r : Rearrangement) : WriterState :=
  if r.report_id ∈ st.2 then
    match r.targetedGene with
    | none => st
    | some g =>
        if g = "" then st
        else
          let at' := determine_rearrangement_type r
          if at'.1 = "" then st
          else (st.1 ++ [[r.report_id, g, at'.1, at'.2]], st.2.erase r.report_id)
  else st

/-- One iteration of the copy-number loop of `convert_to_oncoprinter_format`
(no emptiness check on the alteration label in the source). -/
def processCNA (st : WriterState) (c : CNA) : WriterState :=
  if c.report_id ∈ st.2 then
    match c.gene with
    | none => st
    | some g =>
        if g = "" then st
        else
          let at' := determine_cna_type c
          (st.1 ++ [[c.report_id, g, at'.1, at'.2]], st.2.erase c.report_id)
  else st

/-- `convert_to_oncoprinter_format` of `to_oncoprinter_filtered_by_dx.py`:
processes variants, then rearrangements, then copy-number alterations, and
finally writes one bare-sample row for every id left in `all_patient_ids`.
The initial set `set(patients['report_id'])` is modelled as the deduplicated
id list. -/
def convert_to_oncoprinter_format (patientIds : List String)
    (variants : List Variant) (cnas : List CNA)
    (rearrangements : List Rearrangement) : List (List String) :=
  let st0 : WriterState := ([], patientIds.dedup)
  let st1 := variants.foldl processVariant st0
  let st2 := rearrangements.foldl processRearrangement st1
  let st3 := cnas.foldl processCNA st2
  st3.1 ++ st3.2.map (fun pid => [pid])

end FilteredByDx

namespace MutationMap

/-- One row of `short_variants.csv` as read by
`to_oncoprinter_mutation_map_validated_dataset.py`. -/
structure MMVariant where
  report_id : String
  gene : String
  position : Option String
  cdsEffect : Option String
  proteinEffect : String
  functionalEffect : String
  status : String
deriving DecidableEq, Repr

/-- Python `s.replace('chr', '')`: removes every occurrence of `chr`,
scanning left to right without overlap. -/
def removeChr : List Char → List Char
  | 'c' :: 'h' :: 'r' :: rest => removeChr rest
  | c :: rest => c :: removeChr rest
  | [] => []

/-- Python `'ins' in s`. -/
def containsIns : List Char → Bool
  | 'i' :: 'n' :: 's' :: _ => true
  | _ :: rest => containsIns rest
  | [] => false

/-- Python `'del' in s`. -/
def containsDel : List Char → Bool
  | 'd' :: 'e' :: 'l' :: _ => true
  | _ :: rest => containsDel rest
  | [] => false

/-- Python `s.split('ins')`: leftmost non-overlapping occurrences separate
the parts. -/
def splitIns : List Char → List (List Char)
  | 'i' :: 'n' :: 's' :: rest => [] :: splitIns rest
  | c :: rest =>
      match splitIns rest with
      | h :: t => (c :: h) :: t
      | [] => [[c]]
  | [] => [[]]

/-- Python `s.split('del')`. -/
def splitDel : List Char → List (List Char)
  | 'd' :: 'e' :: 'l' :: rest => [] :: splitDel rest
  | c :: rest =>
      match splitDel rest with
      | h :: t => (c :: h) :: t
      | [] => [[c]]
  | [] => [[]]

/-- `parse_genomic_position`: `none`/empty input fails; otherwise every
occurrence of `chr` is removed, the remainder is split on `:`, and the result
is the pair exactly when there are two parts and the second parses as a
base-10 integer. -/
def parse_genomic_position (pos : Option String) : Option String × Option ℤ :=
  match pos with
  | none => (none, none)
  | some s =>
      if s = "" then (none, none)
      else
        match (Py.splitOnChar ':' (removeChr s.toList)).map String.mk with
        | [c, p] =>
            match Py.pyInt p with
            | some n => (some c, some n)
            | none => (none, none)
        | _ => (none, none)

/-- `parse_cds_effect`: classification by substring content, priority
`ins`, then `del`, then `>`; the first two branches yield a pair only when
the corresponding split produces exactly two parts, the `>` branch only when
splitting the letter-filtered text on `>` produces exactly two (possibly
empty) parts; everything else is `(None, None)`. -/
def parse_cds_effect (cds : Option String) : Option String × Option String :=
  match cds with
  | none => (none, none)
  | some s =>
      if s = "" then (none, none)
      else
        let l := s.toList
        if containsIns l then
          match splitIns l with
          | [_, b] => (some "-", some (String.mk b))
          | _ => (none, none)
        else if containsDel l then
          match splitDel l with
          | [_, b] => (some (String.mk b), some "-")
          | _ => (none, none)
        else if l.contains '>' then
          match Py.splitOnChar '>' (l.filter (fun c => c.isAlpha || c = '>')) with
          | [a, b] => (some (String.mk a), some (String.mk b))
          | _ => (none, none)
        else (none, none)

/-- `determine_mutation_type` of the mutation-map script: maps the
functional effect to a MAF-style label, defaulting to `Missense_Mutation`. -/
def mm_determine_mutation_type (functionalEffect : String) : String :=
  if functionalEffect = "missense" then "Missense_Mutation"
  else if functionalEffect = "nonsense" then "Nonsense_Mutation"
  else if functionalEffect = "nonframeshift" ∨ functionalEffect = "inframe" then "In_Frame_Indel"
  else if functionalEffect = "frameshift" then "Frame_Shift_Indel"
  else if functionalEffect = "splice" then "Splice_Site"
  else if functionalEffect = "promoter" then "Promoter"
  else "Missense_Mutation"

/-- One 11-column data row of the validated table, holding the values handed
to `writer.writerow` (the writer stringifies the two integer columns). -/
structure MMOutRow where
  hugoSymbol : String
  sampleId : String
  proteinChange : String
  mutationType : String
  chromosome : String
  startPosition : ℤ
  endPosition : ℤ
  referenceAllele : String
  variantAllele : String
  validationStatus : String
  mutationStatus : String
deriving DecidableEq, Repr

/-- The loop body shared by `convert_to_oncoprinter_format` and
`process_genes_to_single_file`: a data row is produced exactly when both the
genomic position and the allele pair parse; both position columns receive
the single parsed position. -/
def mmRow (gene : String) (v : MMVariant) : Option MMOutRow :=
  match parse_genomic_position v.position with
  | (some chromosome, some position) =>
      match parse_cds_effect v.cdsEffect with
      | (some referenceAllele, some variantAllele) =>
          some { hugoSymbol := gene
                 sampleId := v.report_id
                 proteinChange := v.proteinEffect
                 mutationType := mm_determine_mutation_type v.functionalEffect
                 chromosome := chromosome
                 startPosition := position
                 endPosition := position
                 referenceAllele := referenceAllele
                 variantAllele := variantAllele
                 validationStatus :=
                   if v.status = "known" ∨ v.status = "likely" then "Valid" else "Unknown"
                 mutationStatus := "Somatic" }
      | _ => none
  | _ => none

/-- Data rows of `convert_to_oncoprinter_format` for one gene (the header
row is not part of this list). -/
def mm_convert_rows (variants : List MMVariant) (gene : String) : List MMOutRow :=
  (variants.filter (fun v => v.gene = gene)).filterMap (mmRow gene)

/-- Data rows of `process_genes_to_single_file`: per-gene rows concatenated
in gene order, empty gene names skipped. -/
def mm_single_file_rows (variants : List MMVariant) (genes : List String) :
    List MMOutRow :=
  (genes.filter (fun g => g ≠ "")).flatMap (mm_convert_rows variants)

end MutationMap

namespace ClinicalData

/-- The two columns of `short_variants.csv` used by the clinical-data
script's spectrum computation. -/
structure SVRow where
  report_id : String
  cdsEffect : Option String
deriving DecidableEq, Repr

/-- Character class `[ACGT]` of the spectrum regular expression. -/
def isACGT (c : Char) : Bool :=
  c = 'A' || c = 'C' || c = 'G' || c = 'T'

/-- `re.search(r'([ACGT])>([ACGT])', s)`: the leftmost three-character
window of shape `base > base` with both bases in `ACGT`, scanning the
string one position at a time; strings shorter than the window never
match. -/
def findSubMatch : List Char → Option (Char × Char)
  | a :: b :: c :: rest =>
      if isACGT a = true ∧ b = '>' ∧ isACGT c = true then some (a, c)
      else findSubMatch (b :: c :: rest)
  | _ => none

/-- The Watson-Crick complement dictionary `{'A':'T','C':'G','G':'C','T':'A'}`
of the source; characters outside `ACGT` are never looked up because the
regular expression guarantees `ACGT` arguments. -/
def complementBase (c : Char) : Char :=
  if c = 'A' then 'T'
  else if c = 'C' then 'G'
  else if c = 'G' then 'C'
  else if c = 'T' then 'A'
  else c

/-- The fixed channel order of the spectrum track. -/
def mutation_types : List String :=
  ["C>A", "C>G", "C>T", "T>A", "T>C", "T>G"]

/-- The `ref`/`alt` normalisation of `calculate_mutation_spectrum`:
pyrimidine references pass through, `G`/`A` references are rewritten to the
opposite strand. -/
def normalizeMutation (ref alt : Char) : Option String :=
  if ref = 'C' ∨ ref = 'T' then some (String.mk [ref, '>', alt])
  else if ref = 'G' then some (String.mk ['C', '>', complementBase alt])
  else if ref = 'A' then some (String.mk ['T', '>', complementBase alt])
  else none

/-- `mutation_types.index(m)` guarded by `m in mutation_types`. -/
def indexOfStr (m : String) : List String → Option ℕ
  | [] => none
  | x :: xs => if x = m then some 0 else (indexOfStr m xs).map (· + 1)

/-- Channel selected by one iteration of `calculate_mutation_spectrum` for a
`@cds-effect` cell: `none` when the row increments no channel. -/
def spectrumChannel (cds : Option String) : Option ℕ :=
  match cds with
  | none => none
  | some s =>
      if s = "" then none
      else
        match findSubMatch s.toList with
        | none => none
        | some (ref, alt) =>
            match normalizeMutation ref alt with
            | none => none
            | some m => indexOfStr m mutation_types

/-- One iteration of the variant loop of `calculate_mutation_spectrum`:
`spectrum[patient_id][idx] += 1` on the defaultdict, modelled as a total
function into 6-entry count lists. -/
def spectrumUpdate (spectrum : String → List ℕ) (row : SVRow) : String → List ℕ :=
  match spectrumChannel row.cdsEffect with
  | none => spectrum
  | some idx => fun pid =>
      if pid = row.report_id then
        (spectrum pid).set idx ((spectrum pid).getD idx 0 + 1)
      else spectrum pid

/-- `calculate_mutation_spectrum`: fold of `spectrumUpdate` over the variant
rows, starting from the all-zero defaultdict. -/
def calculate_mutation_spectrum (rows : List SVRow) : String → List ℕ :=
  rows.foldl spectrumUpdate (fun _ => [0, 0, 0, 0, 0, 0])

/-- Rounding used by `Series.round` (numpy): round half to even. -/
def roundHalfEven (q : ℚ) : ℤ :=
  let f := ⌊q⌋
  if q - f < 1 / 2 then f
  else if q - f > 1 / 2 then f + 1
  else if Even f then f else f + 1

/-- `calculate_age`: `(CollDate - DOB).dt.days / 365.25`, rounded by
`Series.round`; a missing or unparseable date propagates to a missing age.
The day difference of the two parsed dates is taken as the input. -/
def calculate_age (days : Option ℤ) : Option ℤ :=
  days.map (fun d => roundHalfEven ((d : ℚ) / 365.25))

/-- pandas `Series.unique`: first occurrences in encounter order, written
with an accumulator of already-seen values. -/
def dedupFirstAux (seen : List String) : List String → List String
  | [] => []
  | x :: xs =>
      if x ∈ seen then dedupFirstAux seen xs
      else x :: dedupFirstAux (seen ++ [x]) xs

/-- `patients['SubmittedDiagnosis'].dropna().unique()` over the table's
diagnosis column. -/
def uniqueDiagnoses (rows : List (Option String)) : List String :=
  dedupFirstAux [] (rows.filterMap id)

/-- `dx[:4].lower()`, the grouping key of `group_diagnoses`. -/
def dxKey (dx : String) : String :=
  String.mk ((dx.toList.take 4).map Char.toLower)

/-- The members of one diagnosis group, in encounter order: the distinct
diagnoses of length at least 4 whose lowercase 4-character key is `k`. -/
def groupMembers (rows : List (Option String)) (k : String) : List String :=
  (uniqueDiagnoses rows).filter (fun d => 4 ≤ d.length && dxKey d = k)

/-- Occurrences of diagnosis `d` across the full patient table, as counted
by the `Counter` loop of `group_diagnoses`. -/
def countDx (rows : List (Option String)) (d : String) : ℕ :=
  (rows.filterMap id).count d

/-- `Counter.most_common(1)[0][0]` over a group: the first member attaining
the maximal table count, ties resolved in favour of the earlier member. -/
def mostCommon (rows : List (Option String)) : List String → Option String
  | [] => none
  | d :: ds =>
      some (ds.foldl (fun best x => if countDx rows best < countDx rows x then x else best) d)

/-- `group_diagnoses` as the mapping it builds: defined exactly for the
distinct diagnoses of length at least 4, sending each to the most common
member of its group. -/
def group_diagnoses (rows : List (Option String)) (dx : String) : Option String :=
  if 4 ≤ dx.length ∧ dx ∈ uniqueDiagnoses rows then
    mostCommon rows (groupMembers rows (dxKey dx))
  else none

/-- The `Cancer_Type` cell of `convert_to_clinical_data_format`: the unified
diagnosis when the raw diagnosis has one, the raw diagnosis when not, `N/A`
when missing. -/
def cancerTypeOf (rows : List (Option String)) (dx : Option String) : String :=
  match dx with
  | none => "N/A"
  | some d =>
      match group_diagnoses rows d with
      | some m => m
      | none => d

end ClinicalData

namespace SpecSide

/-- Modelled from the words of claim C3: strips a literal `chr` PREFIX only
(not every occurrence), splits on `:`, and yields the pair exactly when
there are two parts whose second is a base-10 integer. -/
def claimParsePosition (pos : Option String) : Option String × Option ℤ :=
  match pos with
  | none => (none, none)
  | some s =>
      if s = "" then (none, none)
      else
        let stripped :=
          if Py.leadsWith ['c', 'h', 'r'] s.toList then s.toList.drop 3
          else s.toList
        match (Py.splitOnChar ':' stripped).map String.mk with
        | [c, p] =>
            match Py.pyInt p with
            | some n => (some c, some n)
            | none => (none, none)
        | _ => (none, none)

/-- Modelled from the words of claim C4: same substring-priority
classification, but every string containing `ins` (`del`) yields the text
after its first occurrence, and in the substitution branch the two tokens
around `>` must both be non-empty letter tokens; otherwise `(None, None)`. -/
def claimParseAllele (cds : Option String) : Option String × Option String :=
  match cds with
  | none => (none, none)
  | some s =>
      if s = "" then (none, none)
      else
        let l := s.toList
        if MutationMap.containsIns l then
          match MutationMap.splitIns l with
          | _ :: rest => (some "-", some (String.mk (List.intercalate ['i', 'n', 's'] rest)))
          | [] => (none, none)
        else if MutationMap.containsDel l then
          match MutationMap.splitDel l with
          | _ :: rest => (some (String.mk (List.intercalate ['d', 'e', 'l'] rest)), some "-")
          | [] => (none, none)
        else if l.contains '>' then
          match Py.splitOnChar '>' (l.filter (fun c => c.isAlpha || c = '>')) with
          | [a, b] =>
              if a ≠ [] ∧ b ≠ [] ∧ a.all Char.isAlpha ∧ b.all Char.isAlpha then
                (some (String.mk a), some (String.mk b))
              else (none, none)
          | _ => (none, none)
        else (none, none)

/-- Modelled from the words of claim C5: the Watson-Crick complement
`A↔T, C↔G`. -/
def claimComplement (c : Char) : Char :=
  if c = 'A' then 'T'
  else if c = 'T' then 'A'
  else if c = 'C' then 'G'
  else 'C'

/-- Modelled from the words of claim C5: the channel of a single-base
substitution after pyrimidine-reference normalisation, as an index into
`[C>A, C>G, C>T, T>A, T>C, T>G]`. -/
def claimChannelIdx (ref alt : Char) : ℕ :=
  let p := if ref = 'C' ∨ ref = 'T' then (ref, alt)
           else (claimComplement ref, claimComplement alt)
  if p = ('C', 'A') then 0
  else if p = ('C', 'G') then 1
  else if p = ('C', 'T') then 2
  else if p = ('T', 'A') then 3
  else if p = ('T', 'C') then 4
  else 5

/-- Position-context characters of the FoundationOne CDS-effect grammar:
digits and the underscore. -/
def posCtxChar (c : Char) : Bool :=
  c.isDigit || c = '_'

/-- Modelled from the words of claim C7: rounding to the nearest integer
with ties away from zero. -/
def roundHalfAwayFromZero (q : ℚ) : ℤ :=
  if 0 ≤ q then ⌊q + 1 / 2⌋ else -⌊-q + 1 / 2⌋

/-- Modelled from the words of claim C8: the fixed functional-effect
mapping (`missense→MISSENSE`, `nonsense→TRUNC`, `{nonframeshift,inframe}→
INFRAME`, `frameshift→TRUNC`, `splice→SPLICE`, `promoter→PROMOTER`,
anything else→`OTHER`). -/
def claimBaseType (fe : String) : String :=
  if fe = "missense" then "MISSENSE"
  else if fe = "nonsense" then "TRUNC"
  else if fe = "nonframeshift" ∨ fe = "inframe" then "INFRAME"
  else if fe = "frameshift" then "TRUNC"
  else if fe = "splice" then "SPLICE"
  else if fe = "promoter" then "PROMOTER"
  else "OTHER"

/-- The documented six-value short-variant type vocabulary, with and
without the `_DRIVER` suffix. -/
def claimTypeVocab : List String :=
  ["MISSENSE", "TRUNC", "INFRAME", "SPLICE", "PROMOTER", "OTHER",
   "MISSENSE_DRIVER", "TRUNC_DRIVER", "INFRAME_DRIVER", "SPLICE_DRIVER",
   "PROMOTER_DRIVER", "OTHER_DRIVER"]

/-- The documented copy-number label vocabulary. -/
def claimCNAVocab : List String :=
  ["AMP", "GAIN", "HOMDEL", "HETLOSS"]

end SpecSide

/-!
Theorems.  Each claim of the specification is settled by exactly one
theorem below; counterexample and witness theorems accompany them where
needed.
-/

/-- C1 (divergence evaluation).  The specification asks for one matrix row
per qualifying alteration row.  In the source, the membership test `if
patient_id not in all_patient_ids: continue` is made against the very set
from which a sample is removed when its first alteration row is written
(the inline comment says the test is against the filtered patient list), so
every later alteration row of that sample is silently dropped.  At the
failing input below — one filtered patient with two qualifying short
variants — the output holds a single alteration row instead of two. -/
theorem C1_only_first_alteration_emitted :
    FilteredByDx.convert_to_oncoprinter_format ["P1"]
      [⟨"P1", some "EGFR", "missense", "L858R", "known"⟩,
       ⟨"P1", some "TP53", "missense", "R175H", "unknown"⟩] [] []
      = [["P1", "EGFR", "L858R", "MISSENSE_DRIVER"]] := by
  decide

/-- C6.  `determine_cna_type` maps `amplification` with copy-number ≥ 8 to
`AMP`, `amplification` below the threshold to `GAIN`, `loss` at copy-number
0 to `HOMDEL`, `loss` otherwise to `HETLOSS`, and any other type to the
default `GAIN`; the label is always drawn from `{AMP, GAIN, HOMDEL,
HETLOSS}` (the row's fourth column is the constant category tag `CNA`). -/
theorem C6_determine_cna_type_cases (c : FilteredByDx.CNA) :
    (c.ctype = "amplification" → 8 ≤ c.copyNumber →
        FilteredByDx.determine_cna_type c = ("AMP", "CNA"))
    ∧ (c.ctype = "amplification" → c.copyNumber < 8 →
        FilteredByDx.determine_cna_type c = ("GAIN", "CNA"))
    ∧ (c.ctype = "loss" → c.copyNumber = 0 →
        FilteredByDx.determine_cna_type c = ("HOMDEL", "CNA"))
    ∧ (c.ctype = "loss" → c.copyNumber ≠ 0 →
        FilteredByDx.determine_cna_type c = ("HETLOSS", "CNA"))
    ∧ (c.ctype ≠ "amplification" → c.ctype ≠ "loss" →
        FilteredByDx.determine_cna_type c = ("GAIN", "CNA"))
    ∧ (FilteredByDx.determine_cna_type c).1 ∈ SpecSide.claimCNAVocab := by
  unfold FilteredByDx.determine_cna_type SpecSide.claimCNAVocab
  refine ⟨?_, ?_, ?_, ?_, ?_, ?_⟩ <;> split_ifs <;> simp_all

/-- C6 witness: a concrete high-level amplification. -/
theorem C6_witness :
    FilteredByDx.determine_cna_type ⟨"R1", some "MYC", 9, "amplification"⟩ = ("AMP", "CNA") :=
  (C6_determine_cna_type_cases ⟨"R1", some "MYC", 9, "amplification"⟩).1 rfl (by norm_num)

/-- C8.  `determine_mutation_type` derives the type from the fixed
functional-effect mapping, appends `_DRIVER` exactly when the status is
`known` or `likely`, always stays inside the documented twelve-string
vocabulary, and in particular never passes an input outside that vocabulary
through as the type. -/
theorem C8_determine_mutation_type_vocab (v : FilteredByDx.Variant) :
    ((v.status = "known" ∨ v.status = "likely") →
        (FilteredByDx.determine_mutation_type v).2 =
          SpecSide.claimBaseType v.functionalEffect ++ "_DRIVER")
    ∧ (¬(v.status = "known" ∨ v.status = "likely") →
        (FilteredByDx.determine_mutation_type v).2 =
          SpecSide.claimBaseType v.functionalEffect)
    ∧ (FilteredByDx.determine_mutation_type v).2 ∈ SpecSide.claimTypeVocab
    ∧ (v.functionalEffect ∉ SpecSide.claimTypeVocab →
        (FilteredByDx.determine_mutation_type v).2 ≠ v.functionalEffect) := by
  have h1 : (v.status = "known" ∨ v.status = "likely") →
      (FilteredByDx.determine_mutation_type v).2 =
        SpecSide.claimBaseType v.functionalEffect ++ "_DRIVER" := by
    intro hd
    simp only [FilteredByDx.determine_mutation_type, SpecSide.claimBaseType, if_pos hd]
  have h2 : ¬(v.status = "known" ∨ v.status = "likely") →
      (FilteredByDx.determine_mutation_type v).2 =
        SpecSide.claimBaseType v.functionalEffect := by
    intro hd
    simp only [FilteredByDx.determine_mutation_type, SpecSide.claimBaseType, if_neg hd]
  have h3 : (FilteredByDx.determine_mutation_type v).2 ∈ SpecSide.claimTypeVocab := by
    by_cases hd : v.status = "known" ∨ v.status = "likely"
    · rw [h1 hd]
      unfold SpecSide.claimBaseType
      split_ifs <;> decide
    · rw [h2 hd]
      unfold SpecSide.claimBaseType
      split_ifs <;> decide
  exact ⟨h1, h2, h3, fun hnm heq => hnm (heq ▸ h3)⟩

/-- C8 witness: a known missense variant classifies as `MISSENSE_DRIVER`. -/
theorem C8_witness :
    (FilteredByDx.determine_mutation_type
      ⟨"P1", some "EGFR", "missense", "L858R", "known"⟩).2 =
      SpecSide.claimBaseType "missense" ++ "_DRIVER" :=
  (C8_determine_mutation_type_vocab
    ⟨"P1", some "EGFR", "missense", "L858R", "known"⟩).1 (Or.inl rfl)

/-- C3 counterexample.  The claim describes `parse_genomic_position` as
stripping a literal `chr` PREFIX and returning `(None, None)` whenever the
second colon-part is not a base-10 integer.  The source instead runs
`position_str.replace('chr', '')`, which removes every occurrence of `chr`:
on `"1:2chr3"` the prefix reading demands `(None, None)` (second part
`2chr3` is not numeric), while the code returns `("1", 23)`. -/
theorem C3_counterexample :
    SpecSide.claimParsePosition (some "1:2chr3") = (none, none)
    ∧ MutationMap.parse_genomic_position (some "1:2chr3") = (some "1", some 23) := by
  exact ⟨by decide, by decide⟩

/-- C3, amended: `parse_genomic_position` removes every occurrence of the
substring `chr` (not only a leading prefix), splits on `:`, and returns the
(chromosome, integer position) pair exactly when the split yields two parts
with a base-10 integer second part; every other input (wrong part count,
non-numeric position, empty or missing string) yields `(None, None)`; in
particular `chr16:23647362 ↦ ("16", 23647362)` and
`badstring ↦ (None, None)`. -/
theorem C3_parse_genomic_position :
    MutationMap.parse_genomic_position none = (none, none)
    ∧ MutationMap.parse_genomic_position (some "") = (none, none)
    ∧ MutationMap.parse_genomic_position (some "chr16:23647362") = (some "16", some 23647362)
    ∧ MutationMap.parse_genomic_position (some "badstring") = (none, none)
    ∧ (∀ s c p n, s ≠ "" →
        (Py.splitOnChar ':' (MutationMap.removeChr s.toList)).map String.mk = [c, p] →
        Py.pyInt p = some n →
        MutationMap.parse_genomic_position (some s) = (some c, some n))
    ∧ (∀ s c p, s ≠ "" →
        (Py.splitOnChar ':' (MutationMap.removeChr s.toList)).map String.mk = [c, p] →
        Py.pyInt p = none →
        MutationMap.parse_genomic_position (some s) = (none, none))
    ∧ (∀ s, ((Py.splitOnChar ':' (MutationMap.removeChr s.toList)).map String.mk).length ≠ 2 →
        MutationMap.parse_genomic_position (some s) = (none, none)) := by
  refine ⟨by decide, by decide, by decide, by decide, ?_, ?_, ?_⟩
  · intro s c p n hs hsplit hint
    simp only [MutationMap.parse_genomic_position, if_neg hs, hsplit, hint]
  · intro s c p hs hsplit hint
    simp only [MutationMap.parse_genomic_position, if_neg hs, hsplit, hint]
  · intro s hlen
    by_cases hs : s = ""
    · simp only [MutationMap.parse_genomic_position, if_pos hs]
    · simp only [MutationMap.parse_genomic_position, if_neg hs]
      split
      · rename_i heq
        rw [heq] at hlen
        simp at hlen
      · rfl

/-- C3 witness: the structural clause applied at a concrete input. -/
theorem C3_witness :
    MutationMap.parse_genomic_position (some "chrX:77") = (some "X", some 77) :=
  C3_parse_genomic_position.2.2.2.2.1 "chrX:77" "X" "77" 77
    (by decide) (by decide) (by decide)

/-- C4 counterexample.  The claim's substitution branch demands exactly two
LETTER tokens around `>` and `(None, None)` otherwise.  On `"5>6"` the
letter-filtered text is just `">"`, so the claim demands `(None, None)`;
the source only checks that the split has two (possibly empty) parts and
returns the pair of empty alleles `("", "")`. -/
theorem C4_counterexample :
    SpecSide.claimParseAllele (some "5>6") = (none, none)
    ∧ MutationMap.parse_cds_effect (some "5>6") = (some "", some "") := by
  exact ⟨by decide, by decide⟩

/-- C4, amended: `parse_cds_effect` classifies by substring content in the
priority order `ins`, then `del`, then `>`: a string containing `ins`
yields `('-', text after 'ins')` when `ins` occurs exactly once (the split
has exactly two parts) and `(None, None)` otherwise; symmetrically a
remaining string containing `del` yields `(text after 'del', '-')`; a
remaining string containing `>` yields, after removing every character that
is not a letter or `>`, the two possibly-empty tokens around `>` exactly
when the split yields two parts (the tokens are not required to be
non-empty letter tokens); every other input, including a missing value,
yields `(None, None)`.  The claim's three examples are unchanged. -/
theorem C4_parse_cds_effect :
    MutationMap.parse_cds_effect none = (none, none)
    ∧ MutationMap.parse_cds_effect (some "") = (none, none)
    ∧ MutationMap.parse_cds_effect (some "505C>T") = (some "C", some "T")
    ∧ MutationMap.parse_cds_effect (some "638_639insTGGCGGGGG") = (some "-", some "TGGCGGGGG")
    ∧ MutationMap.parse_cds_effect (some "340_344delCCGGC") = (some "CCGGC", some "-")
    ∧ (∀ s, s ≠ "" → MutationMap.containsIns s.toList = true →
        MutationMap.parse_cds_effect (some s) =
          match MutationMap.splitIns s.toList with
          | [_, b] => (some "-", some (String.mk b))
          | _ => (none, none))
    ∧ (∀ s, s ≠ "" → MutationMap.containsIns s.toList = false →
        MutationMap.containsDel s.toList = true →
        MutationMap.parse_cds_effect (some s) =
          match MutationMap.splitDel s.toList with
          | [_, b] => (some (String.mk b), some "-")
          | _ => (none, none))
    ∧ (∀ s, s ≠ "" → MutationMap.containsIns s.toList = false →
        MutationMap.containsDel s.toList = false →
        s.toList.contains '>' = true →
        MutationMap.parse_cds_effect (some s) =
          match Py.splitOnChar '>' (s.toList.filter (fun c => c.isAlpha || c = '>')) with
          | [a, b] => (some (String.mk a), some (String.mk b))
          | _ => (none, none))
    ∧ (∀ s, s ≠ "" → MutationMap.containsIns s.toList = false →
        MutationMap.containsDel s.toList = false →
        s.toList.contains '>' = false →
        MutationMap.parse_cds_effect (some s) = (none, none)) := by
  refine ⟨by decide, by decide, by decide, by decide, by decide, ?_, ?_, ?_, ?_⟩
  · intro s hs hins
    simp only [MutationMap.parse_cds_effect, if_neg hs, hins, if_true]
  · intro s hs hins hdel
    simp only [MutationMap.parse_cds_effect, if_neg hs, hins, hdel, Bool.false_eq_true,
      if_false, if_true]
  · intro s hs hins hdel hgt
    simp only [MutationMap.parse_cds_effect, if_neg hs, hins, hdel, hgt, Bool.false_eq_true,
      if_false, if_true]
  · intro s hs hins hdel hgt
    simp only [MutationMap.parse_cds_effect, if_neg hs, hins, hdel, hgt, Bool.false_eq_true,
      if_false]

/-- C4 witness: the `ins` clause applied at a concrete input. -/
theorem C4_witness :
    MutationMap.parse_cds_effect (some "12insAT") = (some "-", some "AT") := by
  have h := C4_parse_cds_effect.2.2.2.2.2.1 "12insAT" (by decide) (by decide)
  exact h.trans (by decide)

/-- Any row produced by the shared loop body has equal start and end
columns, both holding the single parsed position of its source variant. -/
theorem mmRow_start_eq_end (gene : String) (v : MutationMap.MMVariant)
    (row : MutationMap.MMOutRow) (h : MutationMap.mmRow gene v = some row) :
    row.startPosition = row.endPosition
    ∧ (MutationMap.parse_genomic_position v.position).2 = some row.startPosition := by
  unfold MutationMap.mmRow at h
  rcases hpos : MutationMap.parse_genomic_position v.position with ⟨oc, onum⟩
  rw [hpos] at h
  rcases oc with _ | c <;> rcases onum with _ | n <;> simp only [] at h
  · exact absurd h (by simp)
  · exact absurd h (by simp)
  · exact absurd h (by simp)
  rcases hcds : MutationMap.parse_cds_effect v.cdsEffect with ⟨oa, ob⟩
  rw [hcds] at h
  rcases oa with _ | a <;> rcases ob with _ | b <;> simp only [] at h
  · exact absurd h (by simp)
  · exact absurd h (by simp)
  · exact absurd h (by simp)
  injection h with h
  subst h
  exact ⟨rfl, rfl⟩

/-- C10.  Every data row of the mutation-map validated table — whether
written per gene by `convert_to_oncoprinter_format` or by
`process_genes_to_single_file` — has `Start_Position = End_Position`, both
equal to the single position parsed from the `@position` field of the row's
source variant; this includes insertion and deletion variants, whose span
is never widened. -/
theorem C10_start_position_eq_end_position :
    (∀ (variants : List MutationMap.MMVariant) (gene : String)
        (row : MutationMap.MMOutRow), row ∈ MutationMap.mm_convert_rows variants gene →
      row.startPosition = row.endPosition
      ∧ ∃ v ∈ variants, v.gene = gene
          ∧ (MutationMap.parse_genomic_position v.position).2 = some row.startPosition)
    ∧ (∀ (variants : List MutationMap.MMVariant) (genes : List String)
        (row : MutationMap.MMOutRow), row ∈ MutationMap.mm_single_file_rows variants genes →
      row.startPosition = row.endPosition) := by
  constructor
  · intro variants gene row hrow
    unfold MutationMap.mm_convert_rows at hrow
    rcases List.mem_filterMap.mp hrow with ⟨v, hv, hrv⟩
    rcases List.mem_filter.mp hv with ⟨hvmem, hvg⟩
    rcases mmRow_start_eq_end gene v row hrv with ⟨h1, h2⟩
    exact ⟨h1, v, hvmem, by simpa using hvg, h2⟩
  · intro variants genes row hrow
    unfold MutationMap.mm_single_file_rows at hrow
    rcases List.mem_flatMap.mp hrow with ⟨g, _, hg⟩
    unfold MutationMap.mm_convert_rows at hg
    rcases List.mem_filterMap.mp hg with ⟨v, _, hrv⟩
    exact (mmRow_start_eq_end g v row hrv).1

/-- C10 witness: a concrete KIT variant produces a row whose two position
columns agree. -/
theorem C10_witness :
    (⟨"KIT", "R1", "p.L576P", "Missense_Mutation", "4", 55593464, 55593464,
      "T", "C", "Valid", "Somatic"⟩ : MutationMap.MMOutRow).startPosition =
    (⟨"KIT", "R1", "p.L576P", "Missense_Mutation", "4", 55593464, 55593464,
      "T", "C", "Valid", "Somatic"⟩ : MutationMap.MMOutRow).endPosition :=
  (C10_start_position_eq_end_position.1
    [⟨"R1", "KIT", some "chr4:55593464", some "1727T>C", "p.L576P", "missense", "known"⟩]
    "KIT" _ (by decide)).1

/-- No integer day count places `days / 365.25` exactly half-way between
two integers: such a tie would force the even number `8 * days` to equal
the odd number `1461 * (2k + 1)`. -/
theorem age_fract_ne_half (d : ℤ) : Int.fract ((d : ℚ) / 365.25) ≠ 1 / 2 := by
  intro h
  have h365 : (365.25 : ℚ) = 1461 / 4 := by norm_num
  set k := ⌊(d : ℚ) / 365.25⌋ with hk
  have hfl : (d : ℚ) / 365.25 = k + 1 / 2 := by
    have h1 := Int.floor_add_fract ((d : ℚ) / 365.25)
    rw [h, ← hk] at h1
    linarith [h1]
  rw [h365] at hfl
  have h8 : (8 : ℚ) * (d : ℚ) = 1461 * (2 * (k : ℚ) + 1) := by
    field_simp at hfl
    linarith
  have h8' : (8 : ℤ) * d = 1461 * (2 * k + 1) := by exact_mod_cast h8
  omega

/-- Away from exact ties, numpy's round-half-to-even agrees with rounding
half away from zero. -/
theorem roundHalfEven_eq_half_away (q : ℚ) (h : Int.fract q ≠ 1 / 2) :
    ClinicalData.roundHalfEven q = SpecSide.roundHalfAwayFromZero q := by
  unfold ClinicalData.roundHalfEven SpecSide.roundHalfAwayFromZero
  have hfr : q - ⌊q⌋ = Int.fract q := (Int.self_sub_floor q).symm
  have h0 : (0 : ℚ) ≤ Int.fract q := Int.fract_nonneg q
  have h1 : Int.fract q < 1 := Int.fract_lt_one q
  have hsum := Int.floor_add_fract q
  rcases lt_or_gt_of_ne h with hlt | hgt
  · rw [if_pos (by rw [hfr]; exact hlt)]
    by_cases hq0 : 0 ≤ q
    · rw [if_pos hq0]
      symm
      rw [Int.floor_eq_iff]
      constructor
      · linarith [Int.floor_le q]
      · linarith
    · rw [if_neg hq0]
      have hneg : ⌊-q + 1 / 2⌋ = -⌊q⌋ := by
        rw [Int.floor_eq_iff]
        constructor
        · push_cast
          linarith
        · push_cast
          linarith
      rw [hneg]
      omega
  · rw [if_neg (by rw [hfr]; exact not_lt.mpr (le_of_lt hgt)),
        if_pos (by rw [hfr]; exact hgt)]
    by_cases hq0 : 0 ≤ q
    · rw [if_pos hq0]
      symm
      rw [Int.floor_eq_iff]
      constructor
      · push_cast
        linarith
      · push_cast
        linarith
    · rw [if_neg hq0]
      have hneg : ⌊-q + 1 / 2⌋ = -⌊q⌋ - 1 := by
        rw [Int.floor_eq_iff]
        constructor
        · push_cast
          linarith
        · push_cast
          linarith
      rw [hneg]
      omega

/-- C7.  `calculate_age` computes `(CollDate − DOB).days / 365.25` and
rounds to the nearest integer; because an exact tie is impossible for an
integer day count, the rounding used by the code (half-to-even) coincides
with the claimed half-away-from-zero rounding on every input.  A missing
day count (absent or unparseable date) propagates to a missing age, and
7306 days yield age 20. -/
theorem C7_calculate_age :
    (∀ d : ℤ, ClinicalData.calculate_age (some d)
        = some (SpecSide.roundHalfAwayFromZero ((d : ℚ) / 365.25)))
    ∧ ClinicalData.calculate_age none = none
    ∧ ClinicalData.calculate_age (some 7306) = some 20 := by
  have hmain : ∀ d : ℤ, ClinicalData.calculate_age (some d)
      = some (SpecSide.roundHalfAwayFromZero ((d : ℚ) / 365.25)) := by
    intro d
    show some (ClinicalData.roundHalfEven ((d : ℚ) / 365.25))
        = some (SpecSide.roundHalfAwayFromZero ((d : ℚ) / 365.25))
    rw [roundHalfEven_eq_half_away _ (age_fract_ne_half d)]
  refine ⟨hmain, rfl, ?_⟩
  rw [hmain 7306]
  unfold SpecSide.roundHalfAwayFromZero
  rw [if_pos (by norm_num)]
  have hf : ⌊((7306 : ℤ) : ℚ) / 365.25 + 1 / 2⌋ = 20 := by
    rw [Int.floor_eq_iff]
    constructor <;> norm_num
  rw [hf]

/-- A position-context character (digit or underscore) is not a base. -/
theorem posCtx_not_ACGT (c : Char) (h : SpecSide.posCtxChar c = true) :
    ClinicalData.isACGT c = false := by
  rcases Bool.or_eq_true_iff.mp h with hd | hu
  · simp only [ClinicalData.isACGT, Bool.or_eq_false_iff, decide_eq_false_iff_not]
    refine ⟨⟨⟨?_, ?_⟩, ?_⟩, ?_⟩ <;> rintro rfl <;> exact absurd hd (by decide)
  · have : c = '_' := by simpa using hu
    subst this
    decide

/-- A position-context character is not `>`. -/
theorem posCtx_ne_gt (c : Char) (h : SpecSide.posCtxChar c = true) : c ≠ '>' := by
  rintro rfl
  exact absurd h (by decide)

/-- The scan skips a leading character that is not a base. -/
theorem findSubMatch_skip (c : Char) (l : List Char)
    (h : ClinicalData.isACGT c = false) :
    ClinicalData.findSubMatch (c :: l) = ClinicalData.findSubMatch l := by
  rcases l with _ | ⟨b, l2⟩
  · simp [ClinicalData.findSubMatch]
  rcases l2 with _ | ⟨e, l3⟩
  · simp [ClinicalData.findSubMatch]
  rw [ClinicalData.findSubMatch]
  rw [if_neg]
  rintro ⟨h1, -, -⟩
  rw [h] at h1
  exact absurd h1 (by decide)

/-- A string without `>` never matches the substitution pattern. -/
theorem findSubMatch_no_gt (l : List Char) (h : '>' ∉ l) :
    ClinicalData.findSubMatch l = none := by
  induction l with
  | nil => rfl
  | cons a rest ih =>
      have hrest : '>' ∉ rest := fun hr => h (List.mem_cons_of_mem _ hr)
      rcases rest with _ | ⟨b, l2⟩
      · rfl
      rcases l2 with _ | ⟨e, l3⟩
      · rfl
      have hb : b ≠ '>' := by
        intro he
        exact hrest (by simp [he])
      rw [ClinicalData.findSubMatch, if_neg (fun hcond => hb hcond.2.1)]
      exact ih hrest

/-- The scan finds the substitution window sitting after a digit/underscore
position context. -/
theorem findSubMatch_ctx (p : List Char) (r v : Char)
    (hp : ∀ c ∈ p, SpecSide.posCtxChar c = true) :
    ClinicalData.findSubMatch (p ++ [r, '>', v]) =
      ClinicalData.findSubMatch [r, '>', v] := by
  induction p with
  | nil => rfl
  | cons c p' ih =>
      have hc : ClinicalData.isACGT c = false :=
        posCtx_not_ACGT c (hp c (List.mem_cons_self c p'))
      rw [List.cons_append, findSubMatch_skip c _ hc]
      exact ih (fun d hd => hp d (List.mem_cons_of_mem _ hd))

/-- On the bare window the scan succeeds exactly for two bases. -/
theorem findSubMatch_window (r v : Char) :
    ClinicalData.findSubMatch [r, '>', v] =
      if ClinicalData.isACGT r = true ∧ ClinicalData.isACGT v = true
      then some (r, v) else none := by
  by_cases h : ClinicalData.isACGT r = true ∧ ClinicalData.isACGT v = true
  · rw [if_pos h, ClinicalData.findSubMatch, if_pos ⟨h.1, rfl, h.2⟩]
  · rw [if_neg h, ClinicalData.findSubMatch, if_neg (fun hc => h ⟨hc.1, hc.2.2⟩)]
    rfl

/-- The code's channel for a single-base substitution written as position
context, reference base, `>`, variant base equals the claim's normalised
channel index. -/
theorem spectrumChannel_single_base (p : List Char) (r v : Char)
    (hp : ∀ c ∈ p, SpecSide.posCtxChar c = true)
    (hr : ClinicalData.isACGT r = true) (hv : ClinicalData.isACGT v = true)
    (hne : r ≠ v) :
    ClinicalData.spectrumChannel (some (String.mk (p ++ [r, '>', v])))
      = some (SpecSide.claimChannelIdx r v) := by
  have hs : String.mk (p ++ [r, '>', v]) ≠ "" := by
    intro h
    have := congrArg String.data h
    simp at this
  have hch : ClinicalData.findSubMatch (String.mk (p ++ [r, '>', v])).toList = some (r, v) := by
    rw [show (String.mk (p ++ [r, '>', v])).toList = p ++ [r, '>', v] from rfl,
      findSubMatch_ctx p r v hp, findSubMatch_window, if_pos ⟨hr, hv⟩]
  simp only [ClinicalData.spectrumChannel, if_neg hs, hch]
  have hr' : ((r = 'A' ∨ r = 'C') ∨ r = 'G') ∨ r = 'T' := by
    simpa [ClinicalData.isACGT, Bool.or_eq_true_iff, decide_eq_true_eq] using hr
  have hv' : ((v = 'A' ∨ v = 'C') ∨ v = 'G') ∨ v = 'T' := by
    simpa [ClinicalData.isACGT, Bool.or_eq_true_iff, decide_eq_true_eq] using hv
  rcases hr' with ((rfl | rfl) | rfl) | rfl <;> rcases hv' with ((rfl | rfl) | rfl) | rfl <;>
    first
      | exact absurd rfl hne
      | decide

/-- The claim's channel index always addresses one of the six channels. -/
theorem claimChannelIdx_lt (r v : Char) : SpecSide.claimChannelIdx r v < 6 := by
  simp only [SpecSide.claimChannelIdx]
  split_ifs <;> norm_num

/-- C5.  One iteration of `calculate_mutation_spectrum` over a short-variant
row: (1) when the `@cds-effect` is a single-base substitution (position
context, reference base, `>`, variant base with distinct `ACGT` bases), the
row increments, for its own `report_id` only, exactly the channel given by
the claim's pyrimidine-reference normalisation — reference `C`/`T` passes
through, reference `G`/`A` is complemented on both sides — and leaves the
other five channels and all other patients untouched; (2) an indel
(`ins`/`del` context followed by `ACGT` bases) increments no channel;
(3) a substitution involving a base outside `ACGT` increments no channel. -/
theorem C5_spectrum_update :
    (∀ (spectrum : String → List ℕ) (row : ClinicalData.SVRow)
        (p : List Char) (r v : Char),
      row.cdsEffect = some (String.mk (p ++ [r, '>', v])) →
      (∀ c ∈ p, SpecSide.posCtxChar c = true) →
      ClinicalData.isACGT r = true → ClinicalData.isACGT v = true → r ≠ v →
      (spectrum row.report_id).length = 6 →
      ClinicalData.spectrumChannel row.cdsEffect = some (SpecSide.claimChannelIdx r v)
      ∧ (ClinicalData.spectrumUpdate spectrum row row.report_id).getD
            (SpecSide.claimChannelIdx r v) 0
          = (spectrum row.report_id).getD (SpecSide.claimChannelIdx r v) 0 + 1
      ∧ (∀ j, j ≠ SpecSide.claimChannelIdx r v →
          (ClinicalData.spectrumUpdate spectrum row row.report_id).getD j 0
            = (spectrum row.report_id).getD j 0)
      ∧ (∀ pid, pid ≠ row.report_id →
          ClinicalData.spectrumUpdate spectrum row pid = spectrum pid))
    ∧ (∀ (spectrum : String → List ℕ) (row : ClinicalData.SVRow)
        (p mid b : List Char),
      row.cdsEffect = some (String.mk (p ++ mid ++ b)) →
      (mid = ['i', 'n', 's'] ∨ mid = ['d', 'e', 'l']) →
      (∀ c ∈ p, SpecSide.posCtxChar c = true) →
      (∀ c ∈ b, ClinicalData.isACGT c = true) →
      ClinicalData.spectrumChannel row.cdsEffect = none
      ∧ ClinicalData.spectrumUpdate spectrum row = spectrum)
    ∧ (∀ (spectrum : String → List ℕ) (row : ClinicalData.SVRow)
        (p : List Char) (r v : Char),
      row.cdsEffect = some (String.mk (p ++ [r, '>', v])) →
      (∀ c ∈ p, SpecSide.posCtxChar c = true) →
      ¬(ClinicalData.isACGT r = true ∧ ClinicalData.isACGT v = true) →
      ClinicalData.spectrumChannel row.cdsEffect = none
      ∧ ClinicalData.spectrumUpdate spectrum row = spectrum) := by
  refine ⟨?_, ?_, ?_⟩
  · intro spectrum row p r v hcds hp hr hv hne hlen
    have hchan : ClinicalData.spectrumChannel row.cdsEffect
        = some (SpecSide.claimChannelIdx r v) := by
      rw [hcds]
      exact spectrumChannel_single_base p r v hp hr hv hne
    have hupd : ClinicalData.spectrumUpdate spectrum row = fun pid =>
        if pid = row.report_id then
          (spectrum pid).set (SpecSide.claimChannelIdx r v)
            ((spectrum pid).getD (SpecSide.claimChannelIdx r v) 0 + 1)
        else spectrum pid := by
      simp only [ClinicalData.spectrumUpdate, hchan]
    refine ⟨hchan, ?_, ?_, ?_⟩
    · simp only [hupd, if_pos rfl, eq_self_iff_true, if_true]
      simp only [List.getD_eq_getElem?_getD]
      rw [List.getElem?_set_self (by rw [hlen]; exact claimChannelIdx_lt r v)]
      rfl
    · intro j hj
      simp only [hupd, if_pos rfl, eq_self_iff_true, if_true]
      simp only [List.getD_eq_getElem?_getD]
      rw [List.getElem?_set_ne (fun h => hj h.symm)]
    · intro pid hpid
      simp only [hupd, if_neg hpid]
  · intro spectrum row p mid b hcds hmid hp hb
    have hng : '>' ∉ (p ++ mid ++ b) := by
      intro hmem
      rcases List.mem_append.mp hmem with hmem1 | hmemb
      · rcases List.mem_append.mp hmem1 with hmemp | hmemm
        · exact posCtx_ne_gt '>' (hp '>' hmemp) rfl
        · rcases hmid with rfl | rfl <;> simp at hmemm
      · exact absurd (hb '>' hmemb) (by decide)
    have hchan : ClinicalData.spectrumChannel row.cdsEffect = none := by
      rw [hcds]
      simp only [ClinicalData.spectrumChannel]
      by_cases hs : String.mk (p ++ mid ++ b) = ""
      · rw [if_pos hs]
      · rw [if_neg hs, show (String.mk (p ++ mid ++ b)).toList = p ++ mid ++ b from rfl,
          findSubMatch_no_gt _ hng]
    exact ⟨hchan, by simp only [ClinicalData.spectrumUpdate, hchan]⟩
  · intro spectrum row p r v hcds hp hnb
    have hs : String.mk (p ++ [r, '>', v]) ≠ "" := by
      intro h
      have := congrArg String.data h
      simp at this
    have hchan : ClinicalData.spectrumChannel row.cdsEffect = none := by
      rw [hcds]
      simp only [ClinicalData.spectrumChannel, if_neg hs]
      rw [show (String.mk (p ++ [r, '>', v])).toList = p ++ [r, '>', v] from rfl,
        findSubMatch_ctx p r v hp, findSubMatch_window, if_neg hnb]
    exact ⟨hchan, by simp only [ClinicalData.spectrumUpdate, hchan]⟩

/-- C5 witness: the strand-normalisation example `G>A` lands in channel
`C>T` (index 2). -/
theorem C5_witness :
    ClinicalData.spectrumChannel (some "123G>A")
      = some (SpecSide.claimChannelIdx 'G' 'A')
    ∧ SpecSide.claimChannelIdx 'G' 'A' = 2 := by
  constructor
  · exact (C5_spectrum_update.1 (fun _ => [0, 0, 0, 0, 0, 0])
      ⟨"P1", some "123G>A"⟩ ['1', '2', '3'] 'G' 'A'
      (by decide) (by decide) (by decide) (by decide) (by decide) (by decide)).1
  · decide

/-- One short-variant writer step either leaves the state unchanged or
appends one four-column row and erases that row's sample id from the
remaining-sample set. -/
theorem processVariant_shape (st : FilteredByDx.WriterState) (v : FilteredByDx.Variant) :
    ((FilteredByDx.processVariant st v).1 = st.1
      ∨ ∃ row, (FilteredByDx.processVariant st v).1 = st.1 ++ [row] ∧ row.length = 4)
    ∧ ((FilteredByDx.processVariant st v).2 = st.2
      ∨ (FilteredByDx.processVariant st v).2 = st.2.erase v.report_id) := by
  unfold FilteredByDx.processVariant
  by_cases hmem : v.report_id ∈ st.2
  · rw [if_pos hmem]
    rcases hg : v.gene with _ | g
    · simp [hg]
    · simp only [hg]
      by_cases h0 : g = ""
      · rw [if_pos h0]
        exact ⟨Or.inl rfl, Or.inl rfl⟩
      · rw [if_neg h0]
        by_cases h1 : (FilteredByDx.determine_mutation_type v).1 = ""
        · rw [if_pos h1]
          exact ⟨Or.inl rfl, Or.inl rfl⟩
        · rw [if_neg h1]
          exact ⟨Or.inr ⟨_, rfl, rfl⟩, Or.inr rfl⟩
  · rw [if_neg hmem]
    exact ⟨Or.inl rfl, Or.inl rfl⟩

/-- The rearrangement writer step has the same shape. -/
theorem processRearrangement_shape (st : FilteredByDx.WriterState)
    (r : FilteredByDx.Rearrangement) :
    ((FilteredByDx.processRearrangement st r).1 = st.1
      ∨ ∃ row, (FilteredByDx.processRearrangement st r).1 = st.1 ++ [row] ∧ row.length = 4)
    ∧ ((FilteredByDx.processRearrangement st r).2 = st.2
      ∨ (FilteredByDx.processRearrangement st r).2 = st.2.erase r.report_id) := by
  unfold FilteredByDx.processRearrangement
  by_cases hmem : r.report_id ∈ st.2
  · rw [if_pos hmem]
    rcases hg : r.targetedGene with _ | g
    · simp [hg]
    · simp only [hg]
      by_cases h0 : g = ""
      · rw [if_pos h0]
        exact ⟨Or.inl rfl, Or.inl rfl⟩
      · rw [if_neg h0]
        by_cases h1 : (FilteredByDx.determine_rearrangement_type r).1 = ""
        · rw [if_pos h1]
          exact ⟨Or.inl rfl, Or.inl rfl⟩
        · rw [if_neg h1]
          exact ⟨Or.inr ⟨_, rfl, rfl⟩, Or.inr rfl⟩
  · rw [if_neg hmem]
    exact ⟨Or.inl rfl, Or.inl rfl⟩

/-- The copy-number writer step has the same shape. -/
theorem processCNA_shape (st : FilteredByDx.WriterState) (c : FilteredByDx.CNA) :
    ((FilteredByDx.processCNA st c).1 = st.1
      ∨ ∃ row, (FilteredByDx.processCNA st c).1 = st.1 ++ [row] ∧ row.length = 4)
    ∧ ((FilteredByDx.processCNA st c).2 = st.2
      ∨ (FilteredByDx.processCNA st c).2 = st.2.erase c.report_id) := by
  unfold FilteredByDx.processCNA
  by_cases hmem : c.report_id ∈ st.2
  · rw [if_pos hmem]
    rcases hg : c.gene with _ | g
    · simp [hg]
    · simp only [hg]
      by_cases h0 : g = ""
      · rw [if_pos h0]
        exact ⟨Or.inl rfl, Or.inl rfl⟩
      · rw [if_neg h0]
        exact ⟨Or.inr ⟨_, rfl, rfl⟩, Or.inr rfl⟩
  · rw [if_neg hmem]
    exact ⟨Or.inl rfl, Or.inl rfl⟩

/-- Folding writer steps that only append four-column rows keeps every
written row four columns wide. -/
theorem foldl_rows_len4 {α : Type} (f : FilteredByDx.WriterState → α → FilteredByDx.WriterState)
    (hf : ∀ st x, (f st x).1 = st.1 ∨ ∃ row, (f st x).1 = st.1 ++ [row] ∧ row.length = 4)
    (l : List α) (st : FilteredByDx.WriterState)
    (h : ∀ row ∈ st.1, row.length = 4) :
    ∀ row ∈ (l.foldl f st).1, row.length = 4 := by
  induction l generalizing st with
  | nil => exact h
  | cons x xs ih =>
      simp only [List.foldl_cons]
      apply ih
      intro row hrow
      rcases hf st x with he | ⟨r4, he, hr4⟩
      · rw [he] at hrow
        exact h row hrow
      · rw [he] at hrow
        rcases List.mem_append.mp hrow with h1 | h2
        · exact h row h1
        · rw [List.mem_singleton.mp h2]
          exact hr4

/-- Records of other samples never change how often a sample occurs in the
remaining-sample set. -/
theorem foldl_count_unchanged {α : Type}
    (f : FilteredByDx.WriterState → α → FilteredByDx.WriterState) (rid : α → String)
    (hf : ∀ st x, (f st x).2 = st.2 ∨ (f st x).2 = st.2.erase (rid x))
    (l : List α) (st : FilteredByDx.WriterState) (pid : String)
    (h : ∀ x ∈ l, rid x ≠ pid) :
    ((l.foldl f st).2).count pid = st.2.count pid := by
  induction l generalizing st with
  | nil => rfl
  | cons x xs ih =>
      simp only [List.foldl_cons]
      rw [ih (f st x) (fun y hy => h y (List.mem_cons_of_mem _ hy))]
      rcases hf st x with he | he
      · rw [he]
      · rw [he]
        exact List.count_erase_of_ne (h x (List.mem_cons_self x xs)).symm st.2

/-- Counting a singleton row among bare-sample rows counts the sample. -/
theorem count_map_singleton (l : List String) (a : String) :
    (l.map (fun q => [q])).count [a] = l.count a := by
  induction l with
  | nil => rfl
  | cons x xs ih =>
      simp only [List.map_cons, List.count_cons, ih]
      by_cases h : a = x
      · simp [h]
      · simp [h, fun hh : [a] = [x] => h (List.singleton_injective hh)]

/-- C2.  A patient of the filtered table with no row in any of the three
alteration tables keeps its id in `all_patient_ids` through all three
loops, so the output contains exactly one row equal to the bare sample id
(alteration rows all have four columns and cannot collide with it). -/
theorem C2_zero_alteration_sample_row (patientIds : List String)
    (variants : List FilteredByDx.Variant) (cnas : List FilteredByDx.CNA)
    (rearrangements : List FilteredByDx.Rearrangement) (pid : String)
    (hmem : pid ∈ patientIds)
    (hv : ∀ v ∈ variants, v.report_id ≠ pid)
    (hr : ∀ r ∈ rearrangements, r.report_id ≠ pid)
    (hc : ∀ c ∈ cnas, c.report_id ≠ pid) :
    (FilteredByDx.convert_to_oncoprinter_format patientIds variants cnas
      rearrangements).count [pid] = 1 := by
  unfold FilteredByDx.convert_to_oncoprinter_format
  rw [List.count_append]
  have hrows : ∀ row ∈ ((cnas.foldl FilteredByDx.processCNA
      (rearrangements.foldl FilteredByDx.processRearrangement
        (variants.foldl FilteredByDx.processVariant ([], patientIds.dedup)))).1),
      row.length = 4 := by
    apply foldl_rows_len4 _ (fun st c => (processCNA_shape st c).1)
    apply foldl_rows_len4 _ (fun st r => (processRearrangement_shape st r).1)
    apply foldl_rows_len4 _ (fun st v => (processVariant_shape st v).1)
    intro row hrow
    exact absurd hrow (List.not_mem_nil row)
  have h1 : ((cnas.foldl FilteredByDx.processCNA
      (rearrangements.foldl FilteredByDx.processRearrangement
        (variants.foldl FilteredByDx.processVariant ([], patientIds.dedup)))).1).count [pid]
      = 0 := by
    rw [List.count_eq_zero]
    intro hmem3
    have h4 := hrows _ hmem3
    simp at h4
  have h2 : ((cnas.foldl FilteredByDx.processCNA
      (rearrangements.foldl FilteredByDx.processRearrangement
        (variants.foldl FilteredByDx.processVariant ([], patientIds.dedup)))).2).count pid
      = 1 := by
    rw [foldl_count_unchanged _ (fun c => c.report_id)
        (fun st c => (processCNA_shape st c).2) _ _ _ hc,
      foldl_count_unchanged _ (fun r => r.report_id)
        (fun st r => (processRearrangement_shape st r).2) _ _ _ hr,
      foldl_count_unchanged _ (fun v => v.report_id)
        (fun st v => (processVariant_shape st v).2) _ _ _ hv]
    rw [List.count_dedup]
    simp [hmem]
  rw [h1, count_map_singleton, h2]

/-- C2 witness: with two filtered patients and one P1 variant, P2 gets
exactly one bare-sample row. -/
theorem C2_witness :
    (FilteredByDx.convert_to_oncoprinter_format ["P1", "P2"]
      [⟨"P1", some "EGFR", "missense", "L858R", "known"⟩] [] []).count ["P2"] = 1 :=
  C2_zero_alteration_sample_row ["P1", "P2"]
    [⟨"P1", some "EGFR", "missense", "L858R", "known"⟩] [] [] "P2"
    (by decide) (by decide) (by decide) (by decide)

/-- Membership in the first-occurrence deduplication. -/
theorem mem_dedupFirstAux (a : String) (l seen : List String) :
    a ∈ ClinicalData.dedupFirstAux seen l ↔ (a ∈ l ∧ a ∉ seen) := by
  induction l generalizing seen with
  | nil => simp [ClinicalData.dedupFirstAux]
  | cons x xs ih =>
      by_cases hx : x ∈ seen
      · rw [ClinicalData.dedupFirstAux, if_pos hx, ih]
        constructor
        · rintro ⟨ha, hs⟩
          exact ⟨List.mem_cons_of_mem _ ha, hs⟩
        · rintro ⟨ha, hs⟩
          rcases List.mem_cons.mp ha with rfl | ha2
          · exact absurd hx hs
          · exact ⟨ha2, hs⟩
      · rw [ClinicalData.dedupFirstAux, if_neg hx]
        constructor
        · intro hmem
          rcases List.mem_cons.mp hmem with rfl | hmem2
          · exact ⟨List.mem_cons_self _ _, hx⟩
          · rcases (ih _).mp hmem2 with ⟨ha, hs⟩
            exact ⟨List.mem_cons_of_mem _ ha, fun hseen => hs (by simp [hseen])⟩
        · rintro ⟨ha, hs⟩
          rcases List.mem_cons.mp ha with rfl | ha2
          · exact List.mem_cons_self _ _
          · by_cases hax : a = x
            · subst hax
              exact List.mem_cons_self _ _
            · refine List.mem_cons_of_mem _ ((ih _).mpr ⟨ha2, ?_⟩)
              simp [hs, hax]

/-- A diagnosis is among the distinct diagnoses exactly when some row
carries it. -/
theorem mem_uniqueDiagnoses (rows : List (Option String)) (dx : String) :
    dx ∈ ClinicalData.uniqueDiagnoses rows ↔ (some dx) ∈ rows := by
  unfold ClinicalData.uniqueDiagnoses
  rw [mem_dedupFirstAux]
  simp [List.mem_filterMap]

/-- The running maximum stays inside the list. -/
theorem foldlMax_mem {α : Type} (g : α → ℕ) (d : α) (ds : List α) :
    ds.foldl (fun best x => if g best < g x then x else best) d ∈ d :: ds := by
  induction ds generalizing d with
  | nil => exact List.mem_singleton_self d
  | cons x xs ih =>
      simp only [List.foldl_cons]
      by_cases h : g d < g x
      · rw [if_pos h]
        exact List.mem_cons_of_mem d (ih x)
      · rw [if_neg h]
        rcases List.mem_cons.mp (ih d) with heq | hmem
        · rw [heq]
          exact List.mem_cons_self _ _
        · exact List.mem_cons_of_mem _ (List.mem_cons_of_mem _ hmem)

/-- The running maximum dominates every list element. -/
theorem foldlMax_ge {α : Type} (g : α → ℕ) (d : α) (ds : List α) :
    ∀ y ∈ d :: ds, g y ≤ g (ds.foldl (fun best x => if g best < g x then x else best) d) := by
  induction ds generalizing d with
  | nil =>
      intro y hy
      rw [List.mem_singleton.mp hy]
      exact le_refl _
  | cons x xs ih =>
      intro y hy
      simp only [List.foldl_cons]
      by_cases h : g d < g x
      · rw [if_pos h]
        rcases List.mem_cons.mp hy with rfl | hy2
        · exact le_trans (le_of_lt h) (ih x x (List.mem_cons_self _ _))
        · exact ih x y hy2
      · rw [if_neg h]
        rcases List.mem_cons.mp hy with rfl | hy2
        · exact ih y y (List.mem_cons_self _ _)
        · rcases List.mem_cons.mp hy2 with rfl | hy3
          · exact le_trans (not_lt.mp h) (ih d d (List.mem_cons_self _ _))
          · exact ih d y (List.mem_cons_of_mem _ hy3)

/-- The running maximum is the first element attaining the maximum: every
element strictly before it in the list has a strictly smaller value. -/
theorem foldlMax_first {α : Type} (g : α → ℕ) (d : α) (ds : List α) :
    ∃ pre post,
      d :: ds = pre ++ (ds.foldl (fun best x => if g best < g x then x else best) d) :: post
      ∧ ∀ x ∈ pre, g x < g (ds.foldl (fun best x => if g best < g x then x else best) d) := by
  induction ds generalizing d with
  | nil => exact ⟨[], [], rfl, by simp⟩
  | cons x xs ih =>
      simp only [List.foldl_cons]
      by_cases h : g d < g x
      · rw [if_pos h]
        rcases ih x with ⟨pre, post, heq, hlt⟩
        refine ⟨d :: pre, post, by rw [List.cons_append, ← heq], ?_⟩
        intro y hy
        rcases List.mem_cons.mp hy with rfl | hy2
        · exact lt_of_lt_of_le h (foldlMax_ge g x xs x (List.mem_cons_self _ _))
        · exact hlt y hy2
      · rw [if_neg h]
        rcases ih d with ⟨pre, post, heq, hlt⟩
        set b := xs.foldl (fun best x => if g best < g x then x else best) d with hb
        rcases pre with _ | ⟨p0, pre'⟩
        · rw [List.nil_append] at heq
          obtain ⟨h1, h2⟩ := List.cons_eq_cons.mp heq
          refine ⟨[], x :: post, ?_, by simp⟩
          rw [List.nil_append, ← h1, ← h2]
        · rw [List.cons_append] at heq
          obtain ⟨h1, h2⟩ := List.cons_eq_cons.mp heq
          refine ⟨p0 :: x :: pre', post, ?_, ?_⟩
          · rw [List.cons_append, List.cons_append, ← h2, h1]
          · intro y hy
            rcases List.mem_cons.mp hy with rfl | hy2
            · exact hlt y (List.mem_cons_self _ _)
            · rcases List.mem_cons.mp hy2 with rfl | hy3
              · refine lt_of_le_of_lt (not_lt.mp h) ?_
                rw [h1]
                exact hlt p0 (List.mem_cons_self _ _)
              · exact hlt y (List.mem_cons_of_mem _ hy3)

/-- C9.  Diagnosis unification: (1) a raw diagnosis shorter than 4
characters joins no group and keeps its original text in the clinical
track; (2) when `group_diagnoses` unifies a diagnosis of the table to `m`,
then `m` belongs to the same lowercase-4-prefix group, attains the maximal
occurrence count over the full table, and is the earliest group member (in
encounter order) attaining that count — and the clinical track prints `m`;
(3) any two table diagnoses of length at least 4 sharing the lowercase
4-character key are remapped to one and the same unified string. -/
theorem C9_group_diagnoses :
    (∀ (rows : List (Option String)) (dx : String), dx.length < 4 →
      ClinicalData.cancerTypeOf rows (some dx) = dx)
    ∧ (∀ (rows : List (Option String)) (dx m : String), 4 ≤ dx.length →
        (some dx) ∈ rows → ClinicalData.group_diagnoses rows dx = some m →
        ClinicalData.cancerTypeOf rows (some dx) = m
        ∧ m ∈ ClinicalData.groupMembers rows (ClinicalData.dxKey dx)
        ∧ (∀ x ∈ ClinicalData.groupMembers rows (ClinicalData.dxKey dx),
            ClinicalData.countDx rows x ≤ ClinicalData.countDx rows m)
        ∧ ∃ pre post,
            ClinicalData.groupMembers rows (ClinicalData.dxKey dx) = pre ++ m :: post
            ∧ ∀ x ∈ pre, ClinicalData.countDx rows x < ClinicalData.countDx rows m)
    ∧ (∀ (rows : List (Option String)) (dx dx' : String), 4 ≤ dx.length →
        4 ≤ dx'.length → (some dx) ∈ rows → (some dx') ∈ rows →
        ClinicalData.dxKey dx' = ClinicalData.dxKey dx →
        (∃ m, ClinicalData.group_diagnoses rows dx = some m)
        ∧ ClinicalData.group_diagnoses rows dx' = ClinicalData.group_diagnoses rows dx) := by
  refine ⟨?_, ?_, ?_⟩
  · intro rows dx h
    have hnone : ClinicalData.group_diagnoses rows dx = none := by
      unfold ClinicalData.group_diagnoses
      rw [if_neg (fun hc => absurd hc.1 (not_le.mpr h))]
    simp only [ClinicalData.cancerTypeOf, hnone]
  · intro rows dx m hlen hmem hgd
    have hkey : dx ∈ ClinicalData.groupMembers rows (ClinicalData.dxKey dx) := by
      unfold ClinicalData.groupMembers
      rw [List.mem_filter]
      refine ⟨(mem_uniqueDiagnoses rows dx).mpr hmem, ?_⟩
      simp [hlen]
    have hcond : 4 ≤ dx.length ∧ dx ∈ ClinicalData.uniqueDiagnoses rows :=
      ⟨hlen, (mem_uniqueDiagnoses rows dx).mpr hmem⟩
    have hmc : ClinicalData.mostCommon rows
        (ClinicalData.groupMembers rows (ClinicalData.dxKey dx)) = some m := by
      have h2 := hgd
      unfold ClinicalData.group_diagnoses at h2
      rwa [if_pos hcond] at h2
    rcases hgm : ClinicalData.groupMembers rows (ClinicalData.dxKey dx) with _ | ⟨d0, ds⟩
    · rw [hgm] at hkey
      exact absurd hkey (List.not_mem_nil dx)
    · rw [hgm] at hmc
      unfold ClinicalData.mostCommon at hmc
      injection hmc with hm
      refine ⟨by simp only [ClinicalData.cancerTypeOf, hgd], ?_, ?_, ?_⟩
      · rw [← hm]
        exact foldlMax_mem _ d0 ds
      · intro x hx
        rw [← hm]
        exact foldlMax_ge _ d0 ds x hx
      · rw [← hm]
        exact foldlMax_first _ d0 ds
  · intro rows dx dx' h1 h2 hm1 hm2 hkey
    have hc1 : 4 ≤ dx.length ∧ dx ∈ ClinicalData.uniqueDiagnoses rows :=
      ⟨h1, (mem_uniqueDiagnoses rows dx).mpr hm1⟩
    have hc2 : 4 ≤ dx'.length ∧ dx' ∈ ClinicalData.uniqueDiagnoses rows :=
      ⟨h2, (mem_uniqueDiagnoses rows dx').mpr hm2⟩
    have hkeydx : dx ∈ ClinicalData.groupMembers rows (ClinicalData.dxKey dx) := by
      unfold ClinicalData.groupMembers
      rw [List.mem_filter]
      refine ⟨(mem_uniqueDiagnoses rows dx).mpr hm1, ?_⟩
      simp [h1]
    constructor
    · rcases hgm : ClinicalData.groupMembers rows (ClinicalData.dxKey dx) with _ | ⟨d0, ds⟩
      · rw [hgm] at hkeydx
        exact absurd hkeydx (List.not_mem_nil dx)
      · refine ⟨ds.foldl (fun best x =>
            if ClinicalData.countDx rows best < ClinicalData.countDx rows x
            then x else best) d0, ?_⟩
        unfold ClinicalData.group_diagnoses
        rw [if_pos hc1, hgm]
        rfl
    · unfold ClinicalData.group_diagnoses
      rw [if_pos hc1, if_pos hc2, hkey]

/-- C9 witness: the specification's lung example — the three diagnoses
share the key `lung`, and the most frequent raw string wins. -/
theorem C9_witness :
    ClinicalData.group_diagnoses
        [some "Lung Adenocarcinoma", some "Lung Adeno", some "Lunger Disease",
         some "Lung Adenocarcinoma"] "Lung Adeno"
      = ClinicalData.group_diagnoses
        [some "Lung Adenocarcinoma", some "Lung Adeno", some "Lunger Disease",
         some "Lung Adenocarcinoma"] "Lunger Disease"
    ∧ ClinicalData.cancerTypeOf
        [some "Lung Adenocarcinoma", some "Lung Adeno", some "Lunger Disease",
         some "Lung Adenocarcinoma"] (some "Lung Adeno") = "Lung Adenocarcinoma" := by
  constructor
  · exact (C9_group_diagnoses.2.2
      [some "Lung Adenocarcinoma", some "Lung Adeno", some "Lunger Disease",
       some "Lung Adenocarcinoma"] "Lunger Disease" "Lung Adeno"
      (by decide) (by decide) (by decide) (by decide) (by decide)).2
  · exact (C9_group_diagnoses.2.1
      [some "Lung Adenocarcinoma", some "Lung Adeno", some "Lunger Disease",
       some "Lung Adenocarcinoma"] "Lung Adeno" "Lung Adenocarcinoma"
      (by decide) (by decide) (by decide)).1
